import Mathlib

/-!
Verification of the fixed-size lock-striped hash table in
src/ThreadSafeHashTable.h.

The embedding is a shallow, purely functional model of the single-threaded
observable behaviour of the C++ class template
thread_safe_hash_table<K, V, hash_function>.  Locks only serialize access
and have no observable single-threaded effect, so they are not modelled.
C++ references returned to the caller are modelled by returning the
referenced value; operations that index into the slot vector return an
Option, with none modelling an out-of-bounds data[index] access.
-/

section Model

variable {K V : Type}

/-- One shard of the table: Bucket owns a list of (key, value) entries
(std::list<std::pair<K, V>> data).  The shared_mutex member has no
single-threaded observable effect and is not modelled. -/
structure Bucket (K V : Type) where
  data : List (K × V)
deriving DecidableEq

/-- Result of find_if over the entry list with the predicate
data.first == key, returning the value of the first matching entry
(it->second) or none when the iterator is end. -/
def findValue [DecidableEq K] (key : K) : List (K × V) → Option V
  | [] => none
  | e :: rest => if e.1 = key then some e.2 else findValue key rest

/-- find_if for the first entry whose key compares equal, followed by
data.erase(it) when the iterator is not end; the identity otherwise. -/
def eraseFirst [DecidableEq K] (key : K) : List (K × V) → List (K × V)
  | [] => []
  | e :: rest => if e.1 = key then rest else e :: eraseFirst key rest

/-- Bucket::insert: data.push_back({key, value}), unconditionally. -/
def Bucket.insert (b : Bucket K V) (key : K) (value : V) : Bucket K V :=
  ⟨b.data ++ [(key, value)]⟩

/-- Bucket::emplace: data.push_back({key, V(std::forward<V>(args)...)}).
Modelled for the instantiations that compile, where the argument pack is a
single argument already converted to a value v : V (the written code casts
each argument to V, so argument lists are restricted to that case); the
appended entry is then (key, v). -/
def Bucket.emplace (b : Bucket K V) (key : K) (v : V) : Bucket K V :=
  ⟨b.data ++ [(key, v)]⟩

/-- Bucket::erase: find_if on the key, erase the found entry, no-op on
miss. -/
def Bucket.erase [DecidableEq K] (b : Bucket K V) (key : K) : Bucket K V :=
  ⟨eraseFirst key b.data⟩

/-- Bucket::get_value: find_if on the key; pointer to the first matching
value, or nullptr, modelled as Option V. -/
def Bucket.get_value [DecidableEq K] (b : Bucket K V) (key : K) : Option V :=
  findValue key b.data

/-- Bucket::get_last_element: data.back().second.  back() on an empty list
is undefined behaviour, modelled as none. -/
def Bucket.get_last_element (b : Bucket K V) : Option V :=
  b.data.getLast?.map Prod.snd

/-- The table: a slot count fixed at construction and a vector of buckets
(std::vector<Bucket> data).  The table-level shared_mutex is not
modelled. -/
structure thread_safe_hash_table (K V : Type) where
  buckets_count : Nat
  data : List (Bucket K V)
deriving DecidableEq

namespace thread_safe_hash_table

/-- The default constructor: buckets_count(10), data(buckets_count) —
ten default-constructed (empty) buckets. -/
def new : thread_safe_hash_table K V :=
  ⟨10, List.replicate 10 ⟨[]⟩⟩

/-- get_index_by_key: hash(key) % buckets_count.  The hash function is the
template parameter hash_function, passed here as an explicit function. -/
def get_index_by_key (hash : K → Nat) (t : thread_safe_hash_table K V)
    (key : K) : Nat :=
  hash key % t.buckets_count

/-- insert: compute the index, then data[index].insert(key, value).
none models an out-of-bounds data[index] access. -/
def insert [DecidableEq K] (hash : K → Nat) (t : thread_safe_hash_table K V)
    (key : K) (value : V) : Option (thread_safe_hash_table K V) :=
  let index := t.get_index_by_key hash key
  if h : index < t.data.length then
    some { t with data := t.data.set index ((t.data.get ⟨index, h⟩).insert key value) }
  else none

/-- emplace: compute the index, then data[index].emplace(key, V(...)).
As with Bucket.emplace, modelled at the instantiations that compile, where
the argument pack amounts to one value v : V. -/
def emplace [DecidableEq K] (hash : K → Nat) (t : thread_safe_hash_table K V)
    (key : K) (v : V) : Option (thread_safe_hash_table K V) :=
  let index := t.get_index_by_key hash key
  if h : index < t.data.length then
    some { t with data := t.data.set index ((t.data.get ⟨index, h⟩).emplace key v) }
  else none

/-- erase: compute the index, then data[index].erase(key). -/
def erase [DecidableEq K] (hash : K → Nat) (t : thread_safe_hash_table K V)
    (key : K) : Option (thread_safe_hash_table K V) :=
  let index := t.get_index_by_key hash key
  if h : index < t.data.length then
    some { t with data := t.data.set index ((t.data.get ⟨index, h⟩).erase key) }
  else none

/-- operator[]: get_value on the target bucket; on nullptr insert a
default-constructed value and return get_last_element of that bucket.
Returns the referenced value together with the updated table; none models
an out-of-bounds slot access or back() on an empty list. -/
def opIndex [DecidableEq K] [Inhabited V] (hash : K → Nat)
    (t : thread_safe_hash_table K V) (key : K) :
    Option (V × thread_safe_hash_table K V) :=
  let index := t.get_index_by_key hash key
  if h : index < t.data.length then
    let b := t.data.get ⟨index, h⟩
    match b.get_value key with
    | some v => some (v, t)
    | none =>
      let b2 := b.insert key default
      match b2.get_last_element with
      | some v => some (v, { t with data := t.data.set index b2 })
      | none => none
  else none

/-- Modelled from the spec: the strict accessor at(key).  The written
source applies the member access arrow to data[index], which is a Bucket
value and not a pointer, so every instantiation of at is ill-formed; the
spec (section 9, pointer/value confusion in strict accessor) records the
intent as looking the key up in the bucket itself and failing with a
key-not-found condition on a miss.  This definition models that intended
at: get_value on the routed bucket, Except.error for the thrown
std::out_of_range, Except.ok v for the returned reference. -/
def at_intended [DecidableEq K] (hash : K → Nat)
    (t : thread_safe_hash_table K V) (key : K) : Option (Except String V) :=
  let index := t.get_index_by_key hash key
  if h : index < t.data.length then
    match (t.data.get ⟨index, h⟩).get_value key with
    | some v => some (Except.ok v)
    | none => some (Except.error "Key doesn\x27t exist")
  else none

/-- clear: data.clear() on the std::vector of buckets — the whole slot
sequence is discarded; buckets_count is left unchanged. -/
def clear (t : thread_safe_hash_table K V) : thread_safe_hash_table K V :=
  { t with data := [] }

/-- bucket_count: returns buckets_count. -/
def bucket_count (t : thread_safe_hash_table K V) : Nat :=
  t.buckets_count

/-- Table-level point lookup, the get of the spec scenarios: route to the
bucket selected by the key hash and run Bucket::get_value there. -/
def get [DecidableEq K] (hash : K → Nat) (t : thread_safe_hash_table K V)
    (key : K) : Option V :=
  let index := t.get_index_by_key hash key
  if h : index < t.data.length then (t.data.get ⟨index, h⟩).get_value key
  else none

/-- The key occurs in some entry of some bucket of the table. -/
def containsKey (t : thread_safe_hash_table K V) (key : K) : Prop :=
  ∃ b ∈ t.data, ∃ e ∈ b.data, e.1 = key

/-- Structural invariant: the slot sequence has exactly buckets_count
slots (true from construction until clear). -/
def WF (t : thread_safe_hash_table K V) : Prop :=
  t.data.length = t.buckets_count

instance [DecidableEq K] (t : thread_safe_hash_table K V) (key : K) :
    Decidable (t.containsKey key) :=
  inferInstanceAs (Decidable (∃ b ∈ t.data, ∃ e ∈ b.data, e.1 = key))

instance (t : thread_safe_hash_table K V) : Decidable t.WF :=
  inferInstanceAs (Decidable (t.data.length = t.buckets_count))

/-- Frame relation between two table states relative to slot i: the slot
count is unchanged, every slot other than i holds the same bucket, and
every key routed to a slot other than i looks up to the same result. -/
def FramedAt [DecidableEq K] (hash : K → Nat)
    (t t2 : thread_safe_hash_table K V) (i : Nat) : Prop :=
  t2.buckets_count = t.buckets_count ∧
  (∀ j, j ≠ i → t2.data.get? j = t.data.get? j) ∧
  (∀ k2, t.get_index_by_key hash k2 ≠ i → t2.get hash k2 = t.get hash k2)

end thread_safe_hash_table

end Model

/-- A concrete deterministic hash on strings, used for the spec
scenarios (the hash function is a pluggable template parameter). -/
def strHash (s : String) : Nat :=
  s.data.foldl (fun h c => h * 31 + c.toNat) 5381

/-! ## Helper lemmas -/

section Lemmas

variable {K V : Type}

theorem findValue_eq_none [DecidableEq K] {key : K} {l : List (K × V)}
    (h : ∀ e ∈ l, e.1 ≠ key) : findValue key l = none := by
  induction l with
  | nil => rfl
  | cons e rest ih =>
    have he : e.1 ≠ key := h e (List.mem_cons_self e rest)
    simp only [findValue, if_neg he]
    exact ih fun x hx => h x (List.mem_cons_of_mem e hx)

theorem eraseFirst_eq_self [DecidableEq K] {key : K} {l : List (K × V)}
    (h : ∀ e ∈ l, e.1 ≠ key) : eraseFirst key l = l := by
  induction l with
  | nil => rfl
  | cons e rest ih =>
    have he : e.1 ≠ key := h e (List.mem_cons_self e rest)
    simp only [eraseFirst, if_neg he]
    exact congrArg (e :: ·) (ih fun x hx => h x (List.mem_cons_of_mem e hx))

theorem findValue_append [DecidableEq K] {key : K} {l l2 : List (K × V)}
    (h : ∀ e ∈ l, e.1 ≠ key) : findValue key (l ++ l2) = findValue key l2 := by
  induction l with
  | nil => rfl
  | cons e rest ih =>
    have he : e.1 ≠ key := h e (List.mem_cons_self e rest)
    simp only [List.cons_append, findValue, if_neg he]
    exact ih fun x hx => h x (List.mem_cons_of_mem e hx)

theorem set_get_self {α : Type} (l : List α) (i : Nat) (h : i < l.length) :
    l.set i (l.get ⟨i, h⟩) = l := by
  induction l generalizing i with
  | nil => simp at h
  | cons a rest ih =>
    cases i with
    | zero => rfl
    | succ n =>
      show a :: rest.set n (rest.get ⟨n, _⟩) = a :: rest
      exact congrArg (a :: ·) (ih n (Nat.lt_of_succ_lt_succ h))

theorem get_eq_of_get? {α : Type} {l : List α} {i : Nat} {a : α}
    (h : l.get? i = some a) (h2 : i < l.length) : l.get ⟨i, h2⟩ = a := by
  rw [List.get?_eq_get h2] at h
  exact Option.some.inj h

theorem Bucket.get_last_element_insert (b : Bucket K V) (key : K) (v : V) :
    (b.insert key v).get_last_element = some v := by
  simp [Bucket.insert, Bucket.get_last_element, List.getLast?_concat]

namespace thread_safe_hash_table

theorem not_contains_bucket {t : thread_safe_hash_table K V} {key : K}
    (h : ¬ t.containsKey key) {b : Bucket K V} (hb : b ∈ t.data) :
    ∀ e ∈ b.data, e.1 ≠ key := fun e he heq => h ⟨b, hb, e, he, heq⟩

theorem get_index_lt (hash : K → Nat) (t : thread_safe_hash_table K V)
    (key : K) (hpos : 0 < t.buckets_count) :
    t.get_index_by_key hash key < t.buckets_count :=
  Nat.mod_lt _ hpos

theorem get_index_lt_length (hash : K → Nat) {t : thread_safe_hash_table K V}
    (key : K) (hWF : t.WF) (hpos : 0 < t.buckets_count) :
    t.get_index_by_key hash key < t.data.length :=
  hWF ▸ get_index_lt hash t key hpos

end thread_safe_hash_table

end Lemmas

/-! ## Claim theorems -/

namespace thread_safe_hash_table

variable {K V : Type}

/-- C1: the strict accessor at(key) looks the key up in the bucket selected
by the key hash; if the key is absent it fails with a key-not-found
condition distinguishable from a found default value, and otherwise it
returns the first matching entry value.  Proved of at_intended, the
spec-modelled strict accessor: the written at is ill-formed C++ (member
arrow applied to a Bucket value) and cannot execute. -/
theorem at_strict_not_found [DecidableEq K] (hash : K → Nat)
    (t : thread_safe_hash_table K V) (key : K)
    (hWF : t.WF) (hpos : 0 < t.buckets_count) :
    (¬ t.containsKey key →
      t.at_intended hash key = some (Except.error "Key doesn\x27t exist")) ∧
    (∀ v, t.get hash key = some v →
      t.at_intended hash key = some (Except.ok v)) := by
  have hlt : t.get_index_by_key hash key < t.data.length :=
    get_index_lt_length hash key hWF hpos
  constructor
  · intro habs
    unfold at_intended
    rw [dif_pos hlt]
    have hnone : (t.data.get ⟨t.get_index_by_key hash key, hlt⟩).get_value key = none := by
      simp only [Bucket.get_value]
      exact findValue_eq_none (not_contains_bucket habs (List.get_mem _ _ _))
    rw [hnone]
  · intro v hv
    unfold get at hv
    rw [dif_pos hlt] at hv
    unfold at_intended
    rw [dif_pos hlt, hv]

/-- C4: basic CRUD round trip.  On a fresh table, insert("a", 1) then a
lookup of "a" gives 1; after erase("a") the lookup gives the absent
indicator; and in general, a lookup of a key absent from the table never
returns a stale or implicitly invented default value — it is none. -/
theorem basic_crud_lookup_miss [DecidableEq K] (hash : K → Nat)
    (t : thread_safe_hash_table K V) (key : K)
    (habs : ¬ t.containsKey key) :
    t.get hash key = none ∧
    (insert strHash new "a" (1 : Nat)).bind (fun u => u.get strHash "a") = some 1 ∧
    ((insert strHash new "a" (1 : Nat)).bind (fun u => u.erase strHash "a")).map
      (fun u => u.get strHash "a") = some none := by
  refine ⟨?_, by decide, by decide⟩
  show (if h : t.get_index_by_key hash key < t.data.length then
      (t.data.get ⟨t.get_index_by_key hash key, h⟩).get_value key
    else none) = none
  split
  · simp only [Bucket.get_value]
    exact findValue_eq_none (not_contains_bucket habs (List.get_mem _ _ _))
  · rfl

/-- C5: duplicate keys.  insert appends unconditionally, so after
insert("a",1) and insert("a",2) the routed bucket holds both entries in
storage order, lookup returns 1 (the first match), and erase("a") removes
only the first match, leaving the entry with value 2 as the new first
match. -/
theorem duplicate_keys_scenario :
    ((insert strHash new "a" (1 : Nat)).bind (fun t => t.insert strHash "a" 2)).bind
      (fun t => t.get strHash "a") = some 1 ∧
    ((insert strHash new "a" (1 : Nat)).bind (fun t => t.insert strHash "a" 2)).map
      (fun t => (t.data.get? (strHash "a" % 10)).map Bucket.data)
      = some (some [("a", 1), ("a", 2)]) ∧
    (((insert strHash new "a" (1 : Nat)).bind (fun t => t.insert strHash "a" 2)).bind
      (fun t => t.erase strHash "a")).bind (fun t => t.get strHash "a") = some 2 ∧
    (((insert strHash new "a" (1 : Nat)).bind (fun t => t.insert strHash "a" 2)).bind
      (fun t => t.erase strHash "a")).map
      (fun t => (t.data.get? (strHash "a" % 10)).map Bucket.data)
      = some (some [("a", 2)]) := by
  decide

/-- C6: erase idempotence.  On any structurally well-formed table state,
erasing a key that is not present returns the table unchanged — a silent
no-op with no failure. -/
theorem erase_absent_noop [DecidableEq K] (hash : K → Nat)
    (t : thread_safe_hash_table K V) (key : K)
    (hWF : t.WF) (hpos : 0 < t.buckets_count) (habs : ¬ t.containsKey key) :
    t.erase hash key = some t := by
  have hlt : t.get_index_by_key hash key < t.data.length :=
    get_index_lt_length hash key hWF hpos
  unfold erase
  rw [dif_pos hlt]
  have hb : ∀ e ∈ (t.data.get ⟨t.get_index_by_key hash key, hlt⟩).data, e.1 ≠ key :=
    not_contains_bucket habs (List.get_mem _ _ _)
  have herase : (t.data.get ⟨t.get_index_by_key hash key, hlt⟩).erase key
      = t.data.get ⟨t.get_index_by_key hash key, hlt⟩ := by
    simp only [Bucket.erase, eraseFirst_eq_self hb]
  rw [herase, set_get_self]

end thread_safe_hash_table

/-! ## Step lemmas for the table operations -/

namespace thread_safe_hash_table

variable {K V : Type}

theorem insert_eq [DecidableEq K] (hash : K → Nat) (t : thread_safe_hash_table K V)
    (key : K) (value : V) (i : Nat) (hieq : t.get_index_by_key hash key = i)
    (hlt : i < t.data.length) :
    t.insert hash key value
      = some { t with data := t.data.set i ((t.data.get ⟨i, hlt⟩).insert key value) } := by
  subst hieq
  unfold insert
  rw [dif_pos hlt]

theorem insert_none [DecidableEq K] (hash : K → Nat) (t : thread_safe_hash_table K V)
    (key : K) (value : V) (hnot : ¬ t.get_index_by_key hash key < t.data.length) :
    t.insert hash key value = none := by
  unfold insert
  rw [dif_neg hnot]

theorem emplace_eq [DecidableEq K] (hash : K → Nat) (t : thread_safe_hash_table K V)
    (key : K) (v : V) (i : Nat) (hieq : t.get_index_by_key hash key = i)
    (hlt : i < t.data.length) :
    t.emplace hash key v
      = some { t with data := t.data.set i ((t.data.get ⟨i, hlt⟩).emplace key v) } := by
  subst hieq
  unfold emplace
  rw [dif_pos hlt]

theorem emplace_none [DecidableEq K] (hash : K → Nat) (t : thread_safe_hash_table K V)
    (key : K) (v : V) (hnot : ¬ t.get_index_by_key hash key < t.data.length) :
    t.emplace hash key v = none := by
  unfold emplace
  rw [dif_neg hnot]

theorem erase_eq [DecidableEq K] (hash : K → Nat) (t : thread_safe_hash_table K V)
    (key : K) (i : Nat) (hieq : t.get_index_by_key hash key = i)
    (hlt : i < t.data.length) :
    t.erase hash key
      = some { t with data := t.data.set i ((t.data.get ⟨i, hlt⟩).erase key) } := by
  subst hieq
  unfold erase
  rw [dif_pos hlt]

theorem erase_none [DecidableEq K] (hash : K → Nat) (t : thread_safe_hash_table K V)
    (key : K) (hnot : ¬ t.get_index_by_key hash key < t.data.length) :
    t.erase hash key = none := by
  unfold erase
  rw [dif_neg hnot]

theorem opIndex_found [DecidableEq K] [Inhabited V] (hash : K → Nat)
    (t : thread_safe_hash_table K V) (key : K) (i : Nat) {v : V}
    (hieq : t.get_index_by_key hash key = i) (hlt : i < t.data.length)
    (hv : (t.data.get ⟨i, hlt⟩).get_value key = some v) :
    t.opIndex hash key = some (v, t) := by
  subst hieq
  unfold opIndex
  rw [dif_pos hlt]
  dsimp only
  rw [hv]

theorem opIndex_miss [DecidableEq K] [Inhabited V] (hash : K → Nat)
    (t : thread_safe_hash_table K V) (key : K) (i : Nat)
    (hieq : t.get_index_by_key hash key = i) (hlt : i < t.data.length)
    (hnone : (t.data.get ⟨i, hlt⟩).get_value key = none) :
    t.opIndex hash key = some ((default : V),
      { t with data := t.data.set i ((t.data.get ⟨i, hlt⟩).insert key default) }) := by
  subst hieq
  unfold opIndex
  rw [dif_pos hlt]
  dsimp only
  rw [hnone, Bucket.get_last_element_insert]

theorem opIndex_none [DecidableEq K] [Inhabited V] (hash : K → Nat)
    (t : thread_safe_hash_table K V) (key : K)
    (hnot : ¬ t.get_index_by_key hash key < t.data.length) :
    t.opIndex hash key = none := by
  unfold opIndex
  rw [dif_neg hnot]

theorem get_eq [DecidableEq K] (hash : K → Nat) (t : thread_safe_hash_table K V)
    (key : K) (i : Nat) (hieq : t.get_index_by_key hash key = i)
    (hlt : i < t.data.length) :
    t.get hash key = (t.data.get ⟨i, hlt⟩).get_value key := by
  subst hieq
  unfold get
  rw [dif_pos hlt]

theorem get_none [DecidableEq K] (hash : K → Nat) (t : thread_safe_hash_table K V)
    (key : K) (hnot : ¬ t.get_index_by_key hash key < t.data.length) :
    t.get hash key = none := by
  unfold get
  rw [dif_neg hnot]

theorem framed_refl [DecidableEq K] (hash : K → Nat)
    (t : thread_safe_hash_table K V) (i : Nat) : FramedAt hash t t i :=
  ⟨rfl, fun _ _ => rfl, fun _ _ => rfl⟩

theorem framed_set [DecidableEq K] (hash : K → Nat)
    (t : thread_safe_hash_table K V) (i : Nat) (b : Bucket K V) :
    FramedAt hash t { t with data := t.data.set i b } i := by
  refine ⟨rfl, ?_, ?_⟩
  · intro j hj
    exact List.get?_set_ne b t.data (Ne.symm hj)
  · intro k2 hk2
    by_cases hl : t.get_index_by_key hash k2 < t.data.length
    · have hlt2 : t.get_index_by_key hash k2 < (t.data.set i b).length := by
        rw [List.length_set]; exact hl
      rw [get_eq hash { t with data := t.data.set i b } k2
            (t.get_index_by_key hash k2) rfl hlt2,
          get_eq hash t k2 (t.get_index_by_key hash k2) rfl hl]
      congr 1
      refine get_eq_of_get? ?_ hlt2
      rw [List.get?_set_ne b t.data (Ne.symm hk2), List.get?_eq_get hl]
    · have h2 : ¬ t.get_index_by_key hash k2 < (t.data.set i b).length := by
        rw [List.length_set]; exact hl
      rw [get_none hash { t with data := t.data.set i b } k2 h2,
          get_none hash t k2 hl]

theorem opIndex_set [DecidableEq K] [Inhabited V] (hash : K → Nat)
    (t : thread_safe_hash_table K V) (key : K) (i : Nat) (b2 : Bucket K V) {v : V}
    (hieq : t.get_index_by_key hash key = i) (hlt : i < t.data.length)
    (hv : b2.get_value key = some v) :
    opIndex hash { t with data := t.data.set i b2 } key
      = some (v, { t with data := t.data.set i b2 }) := by
  have hlt2 : i < (t.data.set i b2).length := by
    rw [List.length_set]
    exact hlt
  have hg : (t.data.set i b2).get ⟨i, hlt2⟩ = b2 :=
    get_eq_of_get? (List.get?_set_eq_of_lt _ hlt) hlt2
  refine opIndex_found hash _ key i hieq hlt2 ?_
  show ((t.data.set i b2).get ⟨i, hlt2⟩).get_value key = some v
  rw [hg]
  exact hv

end thread_safe_hash_table

namespace thread_safe_hash_table

variable {K V : Type}

/-- C2: default-accessor round trip, single-threaded.  For a key absent
from a well-formed table, operator[] returns the default-constructed value
newly appended for that key to the routed bucket, and a second operator[]
access with the same key returns that same value from the same unchanged
table. -/
theorem opIndex_default_round_trip [DecidableEq K] [Inhabited V] (hash : K → Nat)
    (t : thread_safe_hash_table K V) (key : K)
    (hWF : t.WF) (hpos : 0 < t.buckets_count) (habs : ¬ t.containsKey key) :
    (t.opIndex hash key).map Prod.fst = some (default : V) ∧
    (∀ b, t.data.get? (t.get_index_by_key hash key) = some b →
      (t.opIndex hash key).map (fun p => p.2.data.get? (t.get_index_by_key hash key))
        = some (some (b.insert key default))) ∧
    (t.opIndex hash key).bind (fun p => p.2.opIndex hash key) = t.opIndex hash key := by
  have hlt : t.get_index_by_key hash key < t.data.length :=
    get_index_lt_length hash key hWF hpos
  have hball : ∀ e ∈ (t.data.get ⟨t.get_index_by_key hash key, hlt⟩).data, e.1 ≠ key :=
    not_contains_bucket habs (List.get_mem _ _ _)
  have hnone : (t.data.get ⟨t.get_index_by_key hash key, hlt⟩).get_value key = none := by
    simp only [Bucket.get_value]
    exact findValue_eq_none hball
  have hop := opIndex_miss hash t key _ rfl hlt hnone
  refine ⟨?_, ?_, ?_⟩
  · rw [hop]; rfl
  · intro b hb
    have hbeq : t.data.get ⟨t.get_index_by_key hash key, hlt⟩ = b :=
      get_eq_of_get? hb hlt
    rw [← hbeq, hop, Option.map_some']
    exact congrArg some (List.get?_set_eq_of_lt _ hlt)
  · simp only [hop, Option.some_bind]
    refine opIndex_set hash t key (t.get_index_by_key hash key) _ rfl hlt ?_
    show findValue key ((t.data.get ⟨t.get_index_by_key hash key, hlt⟩).data
      ++ [(key, default)]) = some default
    rw [findValue_append hball]
    simp [findValue]

/-- C3: clear() discards the entire slot sequence instead of emptying the
buckets: afterwards the slot count is 0, the invariant slot count ==
buckets_count is violated, every subsequent routed operation indexes out
of bounds, and bucket_count() still returns the construction-time slot
count. -/
theorem clear_breaks_invariant [DecidableEq K] [Inhabited V] (hash : K → Nat)
    (t : thread_safe_hash_table K V) (key : K) (value : V)
    (hpos : 0 < t.buckets_count) :
    t.clear.data.length = 0 ∧
    t.clear.data.length ≠ t.clear.buckets_count ∧
    ¬ t.clear.WF ∧
    t.clear.bucket_count = t.bucket_count ∧
    (new (K := K) (V := V)).bucket_count = 10 ∧
    t.clear.insert hash key value = none ∧
    t.clear.emplace hash key value = none ∧
    t.clear.erase hash key = none ∧
    t.clear.opIndex hash key = none ∧
    t.clear.get hash key = none ∧
    t.clear.at_intended hash key = none := by
  have hnot : ¬ t.clear.get_index_by_key hash key < t.clear.data.length :=
    Nat.not_lt_zero _
  refine ⟨rfl, ?_, ?_, rfl, rfl, insert_none hash _ key value hnot,
    emplace_none hash _ key value hnot, erase_none hash _ key hnot,
    opIndex_none hash _ key hnot, get_none hash _ key hnot, ?_⟩
  · exact fun h => Nat.ne_of_lt hpos h
  · exact fun h => Nat.ne_of_lt hpos h
  · unfold at_intended
    rw [dif_neg hnot]

/-- C7: bucket routing.  The target index is hash(key) mod buckets_count;
the default slot count is 10; two keys whose hashes are congruent mod the
slot count route to the same index, and inserting both appends both
entries to that single bucket in storage order, observable by the bucket
entry count growing by two. -/
theorem bucket_routing [DecidableEq K] (hash : K → Nat)
    (t : thread_safe_hash_table K V) (k1 k2 : K) (v1 v2 : V)
    (hWF : t.WF) (hpos : 0 < t.buckets_count)
    (hcong : hash k1 % t.buckets_count = hash k2 % t.buckets_count) :
    t.get_index_by_key hash k1 = hash k1 % t.buckets_count ∧
    (new (K := K) (V := V)).bucket_count = 10 ∧
    t.get_index_by_key hash k1 = t.get_index_by_key hash k2 ∧
    (∀ b, t.data.get? (t.get_index_by_key hash k1) = some b →
      ((t.insert hash k1 v1).bind (fun u => u.insert hash k2 v2)).map
        (fun u => (u.data.get? (t.get_index_by_key hash k1)).map Bucket.data)
        = some (some (b.data ++ [(k1, v1), (k2, v2)])) ∧
      ((t.insert hash k1 v1).bind (fun u => u.insert hash k2 v2)).map
        (fun u => (u.data.get? (t.get_index_by_key hash k1)).map
          (fun c => c.data.length))
        = some (some (b.data.length + 2))) := by
  have hlt1 : t.get_index_by_key hash k1 < t.data.length :=
    get_index_lt_length hash k1 hWF hpos
  refine ⟨rfl, rfl, hcong, ?_⟩
  intro b hb
  have hbeq : t.data.get ⟨t.get_index_by_key hash k1, hlt1⟩ = b :=
    get_eq_of_get? hb hlt1
  have h1 := insert_eq hash t k1 v1 (t.get_index_by_key hash k1) rfl hlt1
  rw [hbeq] at h1
  have hlt2 : t.get_index_by_key hash k1
      < (t.data.set (t.get_index_by_key hash k1) (b.insert k1 v1)).length := by
    rw [List.length_set]
    exact hlt1
  have h2 := insert_eq hash
    { t with data := t.data.set (t.get_index_by_key hash k1) (b.insert k1 v1) }
    k2 v2 (t.get_index_by_key hash k1) hcong.symm hlt2
  have hget1 : (t.data.set (t.get_index_by_key hash k1) (b.insert k1 v1)).get
      ⟨t.get_index_by_key hash k1, hlt2⟩ = b.insert k1 v1 :=
    get_eq_of_get? (List.get?_set_eq_of_lt _ hlt1) hlt2
  dsimp only at h2
  rw [hget1, List.set_set] at h2
  have hfin : (t.data.set (t.get_index_by_key hash k1)
      ((b.insert k1 v1).insert k2 v2)).get? (t.get_index_by_key hash k1)
      = some ((b.insert k1 v1).insert k2 v2) :=
    List.get?_set_eq_of_lt _ hlt1
  constructor
  · simp only [h1, Option.some_bind, h2, Option.map_some', hfin]
    simp [Bucket.insert]
  · simp only [h1, Option.some_bind, h2, Option.map_some', hfin]
    simp [Bucket.insert]

/-- C8: emplace(key, args) appends the entry built from the constructed
value with the same unconditional-append, duplicate-permitting semantics
as insert of that value, both at the bucket level and through the table
routing.  Proved at the instantiations of the written code that compile
(argument packs amounting to a single value): there the observable effect
of emplace coincides with insert. -/
theorem emplace_refines_insert [DecidableEq K] (hash : K → Nat)
    (t : thread_safe_hash_table K V) (b : Bucket K V) (key : K) (v : V) :
    b.emplace key v = b.insert key v ∧
    t.emplace hash key v = t.insert hash key v :=
  ⟨rfl, rfl⟩

/-- C9: cross-bucket frame property.  insert, emplace, erase, and
operator[] on a key mutate at most the bucket at index hash(key) mod
buckets_count: every other slot holds the same bucket afterwards, and
every key routed to a different slot still looks up to the same result. -/
theorem cross_bucket_frame [DecidableEq K] [Inhabited V] (hash : K → Nat)
    (t : thread_safe_hash_table K V) (key : K) :
    (∀ value t2, t.insert hash key value = some t2 →
      FramedAt hash t t2 (t.get_index_by_key hash key)) ∧
    (∀ v t2, t.emplace hash key v = some t2 →
      FramedAt hash t t2 (t.get_index_by_key hash key)) ∧
    (∀ t2, t.erase hash key = some t2 →
      FramedAt hash t t2 (t.get_index_by_key hash key)) ∧
    (∀ v t2, t.opIndex hash key = some (v, t2) →
      FramedAt hash t t2 (t.get_index_by_key hash key)) := by
  refine ⟨?_, ?_, ?_, ?_⟩
  · intro value t2 h
    by_cases hlt : t.get_index_by_key hash key < t.data.length
    · rw [insert_eq hash t key value _ rfl hlt] at h
      injection h with h2
      subst h2
      exact framed_set hash t _ _
    · rw [insert_none hash t key value hlt] at h
      exact Option.noConfusion h
  · intro v t2 h
    by_cases hlt : t.get_index_by_key hash key < t.data.length
    · rw [emplace_eq hash t key v _ rfl hlt] at h
      injection h with h2
      subst h2
      exact framed_set hash t _ _
    · rw [emplace_none hash t key v hlt] at h
      exact Option.noConfusion h
  · intro t2 h
    by_cases hlt : t.get_index_by_key hash key < t.data.length
    · rw [erase_eq hash t key _ rfl hlt] at h
      injection h with h2
      subst h2
      exact framed_set hash t _ _
    · rw [erase_none hash t key hlt] at h
      exact Option.noConfusion h
  · intro v t2 h
    by_cases hlt : t.get_index_by_key hash key < t.data.length
    · cases hv : (t.data.get ⟨t.get_index_by_key hash key, hlt⟩).get_value key with
      | some v0 =>
        rw [opIndex_found hash t key _ rfl hlt hv] at h
        injection h with h2
        injection h2 with h3 h4
        subst h4
        exact framed_refl hash t _
      | none =>
        rw [opIndex_miss hash t key _ rfl hlt hv] at h
        injection h with h2
        injection h2 with h3 h4
        subst h4
        exact framed_set hash t _ _
    · rw [opIndex_none hash t key hlt] at h
      exact Option.noConfusion h

/-- C10: indexing safety.  get_index_by_key returns hash(key) mod
buckets_count, strictly below buckets_count; the constructor creates
exactly buckets_count = 10 slots; and on any table satisfying the slot
invariant every routed operation stays in bounds (returns some) and
preserves the invariant and the slot count, so that every data[index]
access performed before any clear() is in bounds. -/
theorem indexing_safety [DecidableEq K] [Inhabited V] (hash : K → Nat)
    (t : thread_safe_hash_table K V) (key : K) (value : V)
    (hWF : t.WF) (hpos : 0 < t.buckets_count) :
    t.get_index_by_key hash key = hash key % t.buckets_count ∧
    t.get_index_by_key hash key < t.buckets_count ∧
    t.get_index_by_key hash key < t.data.length ∧
    (new (K := K) (V := V)).WF ∧
    (new (K := K) (V := V)).buckets_count = 10 ∧
    (t.insert hash key value).isSome ∧
    (t.emplace hash key value).isSome ∧
    (t.erase hash key).isSome ∧
    (t.opIndex hash key).isSome ∧
    (∀ t2, t.insert hash key value = some t2 →
      t2.WF ∧ t2.buckets_count = t.buckets_count) ∧
    (∀ t2, t.emplace hash key value = some t2 →
      t2.WF ∧ t2.buckets_count = t.buckets_count) ∧
    (∀ t2, t.erase hash key = some t2 →
      t2.WF ∧ t2.buckets_count = t.buckets_count) ∧
    (∀ v t2, t.opIndex hash key = some (v, t2) →
      t2.WF ∧ t2.buckets_count = t.buckets_count) := by
  have hlt : t.get_index_by_key hash key < t.data.length :=
    get_index_lt_length hash key hWF hpos
  have hWFset : ∀ b : Bucket K V,
      ({ t with data := t.data.set (t.get_index_by_key hash key) b }
        : thread_safe_hash_table K V).WF := by
    intro b
    show (t.data.set (t.get_index_by_key hash key) b).length = t.buckets_count
    rw [List.length_set]
    exact hWF
  refine ⟨rfl, get_index_lt hash t key hpos, hlt, ?_, rfl, ?_, ?_, ?_, ?_,
    ?_, ?_, ?_, ?_⟩
  · show (List.replicate 10 (⟨[]⟩ : Bucket K V)).length = 10
    exact List.length_replicate 10 _
  · rw [insert_eq hash t key value _ rfl hlt]; rfl
  · rw [emplace_eq hash t key value _ rfl hlt]; rfl
  · rw [erase_eq hash t key _ rfl hlt]; rfl
  · cases hv : (t.data.get ⟨t.get_index_by_key hash key, hlt⟩).get_value key with
    | some v0 => rw [opIndex_found hash t key _ rfl hlt hv]; rfl
    | none => rw [opIndex_miss hash t key _ rfl hlt hv]; rfl
  · intro t2 h
    rw [insert_eq hash t key value _ rfl hlt] at h
    injection h with h2
    subst h2
    exact ⟨hWFset _, rfl⟩
  · intro t2 h
    rw [emplace_eq hash t key value _ rfl hlt] at h
    injection h with h2
    subst h2
    exact ⟨hWFset _, rfl⟩
  · intro t2 h
    rw [erase_eq hash t key _ rfl hlt] at h
    injection h with h2
    subst h2
    exact ⟨hWFset _, rfl⟩
  · intro v t2 h
    cases hv : (t.data.get ⟨t.get_index_by_key hash key, hlt⟩).get_value key with
    | some v0 =>
      rw [opIndex_found hash t key _ rfl hlt hv] at h
      injection h with h2
      injection h2 with h3 h4
      subst h4
      exact ⟨hWF, rfl⟩
    | none =>
      rw [opIndex_miss hash t key _ rfl hlt hv] at h
      injection h with h2
      injection h2 with h3 h4
      subst h4
      exact ⟨hWFset _, rfl⟩

end thread_safe_hash_table

/-! ## Witnesses: the claim theorems applied at concrete inputs -/

namespace thread_safe_hash_table

/-- Witness for C1: on a fresh String-to-Nat table, the intended strict
accessor fails with the key-not-found condition for the absent key "a". -/
theorem at_strict_not_found_witness :
    at_intended strHash (new : thread_safe_hash_table String Nat) "a"
      = some (Except.error "Key doesn\x27t exist") :=
  (at_strict_not_found strHash new "a" (by decide) (by decide)).1 (by decide)

/-- Witness for C2: operator[] on the absent key "a" of a fresh table
returns the default-constructed value 0. -/
theorem opIndex_default_round_trip_witness :
    (opIndex strHash (new : thread_safe_hash_table String Nat) "a").map Prod.fst
      = some (default : Nat) :=
  (opIndex_default_round_trip strHash new "a" (by decide) (by decide) (by decide)).1

/-- Witness for C3: after clear() on a fresh table, insert indexes out of
bounds while bucket_count() still reports 10. -/
theorem clear_breaks_invariant_witness :
    (clear (new : thread_safe_hash_table String Nat)).insert strHash "a" 1 = none ∧
    (clear (new : thread_safe_hash_table String Nat)).bucket_count = 10 := by
  have h := clear_breaks_invariant strHash (new : thread_safe_hash_table String Nat)
    "a" 1 (by decide)
  exact ⟨h.2.2.2.2.2.1, h.2.2.2.1⟩

/-- Witness for C4: looking up the absent key "b" on a fresh table yields
the absent indicator. -/
theorem basic_crud_lookup_miss_witness :
    get strHash (new : thread_safe_hash_table String Nat) "b" = none :=
  (basic_crud_lookup_miss strHash new "b" (by decide)).1

/-- Witness for C6: erasing the absent key "b" returns the fresh table
unchanged. -/
theorem erase_absent_noop_witness :
    erase strHash (new : thread_safe_hash_table String Nat) "b" = some new :=
  erase_absent_noop strHash new "b" (by decide) (by decide) (by decide)

/-- Witness for C7: "a" and "k" collide modulo 10 under strHash, and
inserting both lands both entries in the shared bucket in storage
order. -/
theorem bucket_routing_witness :
    ((insert strHash (new : thread_safe_hash_table String Nat) "a" 1).bind
      (fun u => u.insert strHash "k" 2)).map
      (fun u => (u.data.get? (get_index_by_key strHash
        (new : thread_safe_hash_table String Nat) "a")).map Bucket.data)
      = some (some [("a", 1), ("k", 2)]) := by
  have h := (bucket_routing strHash (new : thread_safe_hash_table String Nat)
    "a" "k" 1 2 (by decide) (by decide) (by decide)).2.2.2 ⟨[]⟩ (by decide)
  simpa using h.1

/-- Witness for C9: inserting "a" into a fresh table leaves the lookup of
"b", which routes to a different bucket, unchanged. -/
theorem cross_bucket_frame_witness :
    (insert strHash (new : thread_safe_hash_table String Nat) "a" 1).map
      (fun u => u.get strHash "b") = some (get strHash new "b") := by
  have hins : insert strHash (new : thread_safe_hash_table String Nat) "a" 1
      = some ⟨10, [⟨[]⟩, ⟨[]⟩, ⟨[]⟩, ⟨[]⟩, ⟨[]⟩, ⟨[]⟩, ⟨[]⟩, ⟨[]⟩, ⟨[("a", 1)]⟩, ⟨[]⟩]⟩ := by
    decide
  have h := ((cross_bucket_frame strHash (new : thread_safe_hash_table String Nat)
    "a").1 1 _ hins).2.2 "b" (by decide)
  rw [hins, Option.map_some', h]

/-- Witness for C10: on a fresh table the index of "a" is in bounds and
insert succeeds. -/
theorem indexing_safety_witness :
    get_index_by_key strHash (new : thread_safe_hash_table String Nat) "a"
      < (new : thread_safe_hash_table String Nat).buckets_count ∧
    (insert strHash (new : thread_safe_hash_table String Nat) "a" 1).isSome := by
  have h := indexing_safety strHash (new : thread_safe_hash_table String Nat) "a" 1
    (by decide) (by decide)
  exact ⟨h.2.1, h.2.2.2.2.2.1⟩

end thread_safe_hash_table
